import Mathlib

/-!
Shallow embedding of the release-orchestration core of the `git-ui` CLI
(`src/index.js`), together with theorems checking the natural-language
specification against it.

The embedding covers:
* `parseSelection` — the range-selection parser (`index.js` lines 267-288),
  including a faithful model of JavaScript `parseInt`, `String.prototype.split`
  on a single-character separator, `trim`, and `Set` insertion;
* `hasInvalidNames` — the naming check of the merge-safety analyzer
  (`index.js` lines 319-348);
* `hasUncommittedChanges`, `executeInteractiveCherryPick` and
  `executeQuickRelease` — the execution engine (`index.js` lines 247-254,
  1243-1296, 1440-1540), modelled as pure functions from an environment
  (the outcome the git backend would give each command) to the ordered trace
  of mutating backend calls issued plus the run's terminal outcome.
-/

namespace GitUi

/-! ### Characters, whitespace, JS string helpers -/

/-- Whitespace test used to model JS `String.prototype.trim` and the `\s`
regex class (ASCII whitespace; the JS versions also accept exotic Unicode
spaces, which no claim exercises). -/
def isWs (c : Char) : Bool := c.isWhitespace

/-- Model of JS `trimStart`: drop leading whitespace. -/
def trimL (l : List Char) : List Char := l.dropWhile isWs

/-- Model of JS `trimEnd`: drop trailing whitespace. -/
def trimR (l : List Char) : List Char := (l.reverse.dropWhile isWs).reverse

/-- Model of JS `String.prototype.trim`. -/
def trimBoth (l : List Char) : List Char := trimR (trimL l)

/-- Model of JS `String.prototype.includes` for a single character. -/
def containsCh (c : Char) (l : List Char) : Bool := l.any (fun a => a = c)

/-- Model of JS `String.prototype.split` with a single-character separator:
`"".split(sep) = [""]`, separators delimit (possibly empty) chunks. -/
def splitCh (sep : Char) : List Char → List (List Char)
  | [] => [[]]
  | c :: cs =>
    match splitCh sep cs with
    | [] => [[c]]
    | t :: ts => if c = sep then [] :: t :: ts else (c :: t) :: ts

/-! ### JavaScript `parseInt` -/

/-- Value of a decimal digit character, `none` if not a digit. -/
def digitVal10 (c : Char) : Option ℕ :=
  if '0' ≤ c ∧ c ≤ '9' then some (c.toNat - '0'.toNat) else none

/-- Value of a hexadecimal digit character, `none` if not a hex digit. -/
def digitVal16 (c : Char) : Option ℕ :=
  if '0' ≤ c ∧ c ≤ '9' then some (c.toNat - '0'.toNat)
  else if 'a' ≤ c ∧ c ≤ 'f' then some (c.toNat - 'a'.toNat + 10)
  else if 'A' ≤ c ∧ c ≤ 'F' then some (c.toNat - 'A'.toNat + 10)
  else none

/-- Accumulate the value of the longest digit prefix, stopping at the first
non-digit (JS `parseInt` ignores trailing garbage). -/
def digitsValue (dv : Char → Option ℕ) (base : ℕ) : List Char → ℕ → ℕ
  | [], acc => acc
  | c :: cs, acc =>
    match dv c with
    | some d => digitsValue dv base cs (acc * base + d)
    | none => acc

/-- Parse a digit string: `none` (NaN) when the first character is not a
digit, otherwise the value of the longest digit prefix. -/
def parseDigits (dv : Char → Option ℕ) (base : ℕ) (l : List Char) : Option ℕ :=
  match l with
  | [] => none
  | c :: cs =>
    match dv c with
    | some d => some (digitsValue dv base cs d)
    | none => none

/-- Magnitude part of JS `parseInt` with unspecified radix: a `0x`/`0X`
prefix selects base 16, otherwise base 10. -/
def parseUnsigned (l : List Char) : Option ℕ :=
  match l with
  | '0' :: c :: rest =>
    if c = 'x' ∨ c = 'X' then parseDigits digitVal16 16 rest
    else parseDigits digitVal10 10 ('0' :: c :: rest)
  | _ => parseDigits digitVal10 10 l

/-- Model of JS `parseInt(s)` (radix argument omitted): skip leading
whitespace, optional sign, then the longest digit prefix; `none` models
`NaN`. -/
def jsParseInt (l : List Char) : Option ℤ :=
  let l := l.dropWhile isWs
  match l with
  | '-' :: rest => (parseUnsigned rest).map (fun n => -(n : ℤ))
  | '+' :: rest => (parseUnsigned rest).map (fun n => (n : ℤ))
  | _ => (parseUnsigned l).map (fun n => (n : ℤ))

/-! ### `parseSelection` (index.js lines 267-288) -/

/-- Model of `Set.prototype.add` on a JS `Set` kept as its insertion-ordered
element list. -/
def setAdd (acc : List ℤ) (x : ℤ) : List ℤ := if x ∈ acc then acc else acc ++ [x]

/-- The integers visited by `for (let i = lo; i <= hi; i++)`. -/
def rangeVals (lo hi : ℤ) : List ℤ := (List.range (hi + 1 - lo).toNat).map (fun k => lo + k)

/-- Loop body shared by both branches of `parseSelection`: add `i` to the
selection set when `1 <= i && i <= max`. -/
def addIfValid (m : ℤ) (acc : List ℤ) (i : ℤ) : List ℤ :=
  if 1 ≤ i ∧ i ≤ m then setAdd acc i else acc

/-- Processing of one comma-separated token of `parseSelection`: a token
containing `-` is split into `start`/`end` (both `parseInt`-ed after
trimming; skipped if either is NaN) and the range from the smaller to the
larger endpoint is added element-wise; otherwise the token itself is
`parseInt`-ed and added when in range. -/
def processPart (m : ℤ) (acc : List ℤ) (part : List Char) : List ℤ :=
  if containsCh '-' part then
    match jsParseInt (trimBoth ((splitCh '-' part).getD 0 [])),
          jsParseInt (trimBoth ((splitCh '-' part).getD 1 [])) with
    | some s, some e => (rangeVals (min s e) (max s e)).foldl (addIfValid m) acc
    | _, _ => acc
  else
    match jsParseInt part with
    | some n => addIfValid m acc n
    | none => acc

/-- Model of `parseSelection(input, max)`: split on commas, trim each token,
process each token against the selection set, and return the set's elements
sorted ascending (`Array.from(selected).sort((a, b) => a - b)`). -/
def parseSelection (input : String) (m : ℤ) : List ℤ :=
  let parts := (splitCh ',' input.data).map trimBoth
  List.insertionSort (· ≤ ·) (parts.foldl (processPart m) [])

/-! ### `hasInvalidNames` (index.js lines 319-348) -/

/-- One entry of the naming-issue list produced by `hasInvalidNames`
(`{ file, issue, part }`). -/
structure NameIssue where
  file : String
  issue : String
  part : String
deriving DecidableEq, Repr

/-- Model of the regex `/\s{2,}/`: two or more consecutive whitespace
characters somewhere in the segment. -/
def hasTwoConsecutiveWs : List Char → Bool
  | a :: b :: rest => (isWs a ∧ isWs b) ∨ hasTwoConsecutiveWs (b :: rest)
  | _ => false

/-- Model of the regex `/^\s|\s$/`: leading or trailing whitespace. -/
def hasLeadTrailWs (l : List Char) : Bool :=
  (match l.head? with
   | some c => isWs c
   | none => false) ||
  (match l.getLast? with
   | some c => isWs c
   | none => false)

/-- Model of the regex `/[<>:"|?*\\]/`: a character invalid in Windows
file names. -/
def hasInvalidChar (l : List Char) : Bool :=
  l.any (fun c => c = '<' ∨ c = '>' ∨ c = ':' ∨ c = '"' ∨ c = '|' ∨ c = '?' ∨ c = '*' ∨ c = '\\')

/-- Model of the regex `/\.$/`: trailing period. -/
def hasTrailingPeriod (l : List Char) : Bool :=
  match l.getLast? with
  | some c => c = '.'
  | none => false

/-- Model of the anchored case-insensitive regex
`/^(CON|PRN|AUX|NUL|COM[1-9]|LPT[1-9])$/i`: the whole segment, uppercased,
is exactly one of the reserved Windows device names. -/
def isReservedName (l : List Char) : Bool :=
  let u := l.map Char.toUpper
  decide (u = ['C', 'O', 'N'] ∨ u = ['P', 'R', 'N'] ∨ u = ['A', 'U', 'X'] ∨ u = ['N', 'U', 'L']) ||
  (match u with
   | ['C', 'O', 'M', d] => decide ('1' ≤ d ∧ d ≤ '9')
   | ['L', 'P', 'T', d] => decide ('1' ≤ d ∧ d ≤ '9')
   | _ => false)

/-- Issues recorded for one path segment: the five patterns in the order
of the `invalidPatterns` array, then the over-255-characters check. -/
def partIssues (file : String) (part : List Char) : List NameIssue :=
  (if hasTwoConsecutiveWs part then [⟨file, "multiple consecutive spaces", ⟨part⟩⟩] else []) ++
  (if hasLeadTrailWs part then [⟨file, "leading/trailing spaces", ⟨part⟩⟩] else []) ++
  (if hasInvalidChar part then [⟨file, "invalid characters (<>:\"|?*\\)", ⟨part⟩⟩] else []) ++
  (if hasTrailingPeriod part then [⟨file, "trailing period", ⟨part⟩⟩] else []) ++
  (if isReservedName part then [⟨file, "reserved Windows name", ⟨part⟩⟩] else []) ++
  (if 255 < part.length then [⟨file, "name exceeds 255 characters", ⟨part⟩⟩] else [])

/-- Issues recorded for one file path: per-segment issues (the path is split
on `/`), then the over-260-characters total-path check. -/
def fileIssues (file : String) : List NameIssue :=
  ((splitCh '/' file.data).map (partIssues file)).flatten ++
  (if 260 < file.length then [⟨file, "total path exceeds 260 characters", file⟩] else [])

/-- Model of `hasInvalidNames(files)`: the concatenated issue lists of all
files, in first-seen order. -/
def hasInvalidNames (files : List String) : List NameIssue :=
  (files.map fileIssues).flatten

/-- The merge-safety analyzer sets `hasIssues` to `true` from its naming
check exactly when `hasInvalidNames` returned at least one entry
(`if (nameIssues.length > 0) ... hasIssues = true` in `checkMergeSafety`). -/
def namingCheckHasIssues (files : List String) : Bool :=
  0 < (hasInvalidNames files).length

/-! ### Execution engine (index.js lines 247-254, 1243-1296, 1302-1410, 1440-1540)

The engine is modelled as pure functions from an `Env` — the responses the
git backend would give to each command — to the ordered list of mutating
backend calls (`checkout` / `cherry-pick` / `push`) the run issues, plus the
run's terminal outcome. `execGit`/`execGitWithSpinner` throwing is modelled
by the corresponding `Env` field returning `false`; JavaScript `try`/`catch`
control flow is translated into the explicit case splits below. -/

/-- Commit metadata (`getCommitInfo`). -/
structure Commit where
  fullHash : String
  shortHash : String
  message : String
  date : String
deriving DecidableEq, Repr

/-- One mutating call to the git backend. -/
inductive GitCall where
  | checkout (ref : String)
  | cherryPick (hash : String)
  | push (remote : String) (src : String) (dst : String)
deriving DecidableEq, Repr

/-- Backend environment: what each backend query/command would return.
`statusResult = none` models `git status --porcelain -uno` throwing;
`currentBranchResult = none` models `git rev-parse --abbrev-ref HEAD`
throwing; the three `..Ok` fields tell whether the corresponding mutating
command succeeds or throws. -/
structure Env where
  statusResult : Option String
  currentBranchResult : Option String
  hasLiveRemote : Bool
  checkoutOk : String → Bool
  cherryPickOk : String → Bool
  pushOk : String → String → String → Bool

/-- Model of `hasUncommittedChanges()` (index.js lines 247-254): the status
query's output is non-empty; a thrown status query yields `false`. -/
def hasUncommittedChanges (env : Env) : Bool :=
  match env.statusResult with
  | none => false
  | some s => decide (0 < s.length)

/-- Model of `getCurrentBranch()` (index.js lines 236-242): the branch name,
or the string `unknown` when the query throws. -/
def getCurrentBranch (env : Env) : String :=
  match env.currentBranchResult with
  | none => "unknown"
  | some b => b

/-- How the run ended, mirroring what the source prints: `rejected` — the
menu refused the execute request (`No commits selected!` / `No remotes
selected!`); `cancelled` — the operator declined the confirmation prompt;
`dirtyAbort` — the dirty-working-tree guard fired (`logError`, return);
`caughtError` — a backend call threw and the surrounding `catch` printed an
error; `completed` — the success banner was printed. -/
inductive Outcome where
  | rejected
  | cancelled
  | dirtyAbort
  | caughtError
  | completed
deriving DecidableEq, Repr

/-- Result of one execution run: the mutating backend calls issued, in
order, and the terminal outcome. -/
structure ExecResult where
  calls : List GitCall
  outcome : Outcome
deriving DecidableEq, Repr

/-- The cherry-pick loop: issue `cherry-pick` for each commit in order until
one throws; returns the calls issued and whether all succeeded. -/
def cherryPickRun (env : Env) : List Commit → List GitCall × Bool
  | [] => ([], true)
  | c :: rest =>
    if env.cherryPickOk c.fullHash then
      let r := cherryPickRun env rest
      (GitCall.cherryPick c.fullHash :: r.1, r.2)
    else ([GitCall.cherryPick c.fullHash], false)

/-- The interactive push loop (`for (const remote of remotes)`): push
`HEAD:<targetBranch>` to each remote in order until one throws. -/
def pushRun (env : Env) (targetBranch : String) : List String → List GitCall × Bool
  | [] => ([], true)
  | r :: rest =>
    if env.pushOk r "HEAD" targetBranch then
      let p := pushRun env targetBranch rest
      (GitCall.push r "HEAD" targetBranch :: p.1, p.2)
    else ([GitCall.push r "HEAD" targetBranch], false)

/-- Model of `executeInteractiveCherryPick(commits, remotes, targetBranch)`
(index.js lines 1243-1296): confirm, dirty-tree guard, checkout
`remotes[0]/targetBranch`, cherry-pick the reversed selection, then push
`HEAD:targetBranch` to every remote in selection order. Any throwing call
lands in the `catch` block (`caughtError`); there is no restoring
checkout. -/
def executeInteractiveCherryPick (env : Env) (commits : List Commit)
    (remotes : List String) (targetBranch : String) (proceed : Bool) : ExecResult :=
  if proceed then
    if hasUncommittedChanges env then ⟨[], .dirtyAbort⟩
    else
      let checkoutRef := remotes.headD "undefined" ++ "/" ++ targetBranch
      if env.checkoutOk checkoutRef then
        let cp := cherryPickRun env commits.reverse
        if cp.2 then
          let pu := pushRun env targetBranch remotes
          ⟨GitCall.checkout checkoutRef :: cp.1 ++ pu.1,
           if pu.2 then .completed else .caughtError⟩
        else ⟨GitCall.checkout checkoutRef :: cp.1, .caughtError⟩
      else ⟨[GitCall.checkout checkoutRef], .caughtError⟩
  else ⟨[], .cancelled⟩

/-- The push calls a fully successful quick release issues: `origin
HEAD:release`, then `live origin/release:release` when the `live` remote is
configured. -/
def quickPushCalls (env : Env) : List GitCall :=
  GitCall.push "origin" "HEAD" "release" ::
    (if env.hasLiveRemote then [GitCall.push "live" "origin/release" "release"] else [])

/-- Model of `executeQuickRelease(commits, dryRun)` (index.js lines
1440-1540): confirm, dirty-tree guard, save the original branch, checkout
`origin/release`, cherry-pick the reversed selection, push
`origin HEAD:release`, push `live origin/release:release` when the `live`
remote exists, then — when the original branch name is truthy and the run
is not a dry run — one restoring checkout of the original branch. In
dry-run mode every mutating step is skipped. A throwing call lands in the
single `catch` block (`caughtError`). -/
def executeQuickRelease (env : Env) (commits : List Commit)
    (dryRun : Bool) (proceed : Bool) : ExecResult :=
  if proceed then
    if hasUncommittedChanges env then ⟨[], .dirtyAbort⟩
    else
      let originalBranch := getCurrentBranch env
      if dryRun then ⟨[], .completed⟩
      else if env.checkoutOk "origin/release" then
        let cp := cherryPickRun env commits.reverse
        if cp.2 then
          if env.pushOk "origin" "HEAD" "release" then
            if env.hasLiveRemote ∧ ¬env.pushOk "live" "origin/release" "release" then
              ⟨GitCall.checkout "origin/release" :: cp.1 ++
                 [GitCall.push "origin" "HEAD" "release",
                  GitCall.push "live" "origin/release" "release"], .caughtError⟩
            else
              let pushes := quickPushCalls env
              if originalBranch ≠ "" then
                ⟨GitCall.checkout "origin/release" :: cp.1 ++ pushes ++
                   [GitCall.checkout originalBranch],
                 if env.checkoutOk originalBranch then .completed else .caughtError⟩
              else ⟨GitCall.checkout "origin/release" :: cp.1 ++ pushes, .completed⟩
          else
            ⟨GitCall.checkout "origin/release" :: cp.1 ++
               [GitCall.push "origin" "HEAD" "release"], .caughtError⟩
        else ⟨GitCall.checkout "origin/release" :: cp.1, .caughtError⟩
      else ⟨[GitCall.checkout "origin/release"], .caughtError⟩
  else ⟨[], .cancelled⟩

/-- Model of menu option `[6] Execute cherry-pick and push` of
`runInteractiveMode` (index.js lines 1014-1024): execution is requested only
when both the commit selection and the remote selection are non-empty;
otherwise the menu reports the missing selection and issues nothing. -/
def interactiveExecuteRequest (env : Env) (selectedCommits : List Commit)
    (selectedRemotes : List String) (targetBranch : String) (proceed : Bool) : ExecResult :=
  if selectedCommits.length = 0 then ⟨[], .rejected⟩
  else if selectedRemotes.length = 0 then ⟨[], .rejected⟩
  else executeInteractiveCherryPick env selectedCommits selectedRemotes targetBranch proceed

/-- Model of menu option `[4] Execute cherry-pick` of `runQuickRelease`
(index.js lines 1388-1396): execution is requested only when the commit
selection is non-empty. -/
def quickExecuteRequest (env : Env) (selectedCommits : List Commit)
    (dryRun : Bool) (proceed : Bool) : ExecResult :=
  if selectedCommits.length = 0 then ⟨[], .rejected⟩
  else executeQuickRelease env selectedCommits dryRun proceed

/-- Checkout recognizer on backend calls. -/
def isCheckout : GitCall → Bool
  | .checkout _ => true
  | _ => false

/-- Cherry-pick recognizer on backend calls. -/
def isCherryPick : GitCall → Bool
  | .cherryPick _ => true
  | _ => false

/-- Push recognizer on backend calls. -/
def isPush : GitCall → Bool
  | .push _ _ _ => true
  | _ => false

/-- Source ref of a push call (`HEAD` or a branch name), or `""` for other
calls. -/
def pushSrc : GitCall → String
  | .push _ s _ => s
  | _ => ""

/-! ### Concrete environments and commits used by witnesses and counterexamples -/

/-- Backend in which every call succeeds, the working tree is clean, the
current branch is `develop`, and the `live` remote is configured. -/
def envLive : Env :=
  { statusResult := some ""
    currentBranchResult := some "develop"
    hasLiveRemote := true
    checkoutOk := fun _ => true
    cherryPickOk := fun _ => true
    pushOk := fun _ _ _ => true }

/-- Like `envLive` but without the `live` remote. -/
def envNoLive : Env :=
  { envLive with hasLiveRemote := false }

/-- Clean-tree backend in which every call succeeds except checking out the
branch `develop` (so the quick release's restoring checkout fails). -/
def envRestoreFails : Env :=
  { envLive with checkoutOk := fun ref => ref ≠ "develop" }

/-- Backend whose working tree is dirty (` M file` from `git status`). -/
def envDirty : Env :=
  { envLive with statusResult := some " M file" }

/-- Backend whose status query itself throws. -/
def envStatusFail : Env :=
  { envLive with statusResult := none }

/-- A concrete commit. -/
def commitA : Commit := ⟨"aaaa", "aaaa", "msg a", "2026-01-01"⟩

/-- A second concrete commit. -/
def commitB : Commit := ⟨"bbbb", "bbbb", "msg b", "2026-01-02"⟩

/-- A third concrete commit. -/
def commitC : Commit := ⟨"cccc", "cccc", "msg c", "2026-01-03"⟩

/-- Invariant carried by the selection set while `parseSelection` runs: no
duplicate indices, and every index within `[1, m]`. -/
def GoodSel (m : ℤ) (l : List ℤ) : Prop := l.Nodup ∧ ∀ x ∈ l, 1 ≤ x ∧ x ≤ m

/-! ### Sanity evaluations of the model on concrete inputs -/

/-- The spec's worked `parseSelection` example. -/
theorem parseSelection_sample_ranges :
    parseSelection "1-5, 8, 10-12" 12 = [1, 2, 3, 4, 5, 8, 10, 11, 12] := by decide

/-- Duplicate and overlapping tokens are deduplicated and sorted. -/
theorem parseSelection_sample_dedup : parseSelection "3, 1, 3, 2-3" 7 = [1, 2, 3] := by decide

/-- Non-numeric, out-of-range and negative tokens are dropped. -/
theorem parseSelection_sample_dropped : parseSelection "abc, 99, -4" 7 = [] := by decide

/-- A path segment that is exactly a reserved device name is flagged. -/
theorem hasInvalidNames_sample_reserved :
    hasInvalidNames ["a/lpt7"] = [⟨"a/lpt7", "reserved Windows name", "lpt7"⟩] := by decide

/-- A clean path yields no issue; one with two independent issues yields the
entries in pattern order. -/
theorem hasInvalidNames_sample_order :
    hasInvalidNames ["ok/name.txt"] = [] ∧
    hasInvalidNames ["a  b."] =
      [⟨"a  b.", "multiple consecutive spaces", "a  b."⟩,
       ⟨"a  b.", "trailing period", "a  b."⟩] := by decide

/-- A fully successful quick release issues checkout, the reversed
cherry-picks, both pushes and the restoring checkout, in that order. -/
theorem executeQuickRelease_sample :
    executeQuickRelease envLive [commitA, commitB] false true =
      ⟨[GitCall.checkout "origin/release",
        GitCall.cherryPick "bbbb", GitCall.cherryPick "aaaa",
        GitCall.push "origin" "HEAD" "release",
        GitCall.push "live" "origin/release" "release",
        GitCall.checkout "develop"], .completed⟩ := by decide

/-- A fully successful interactive run issues checkout, the reversed
cherry-picks and one push per selected remote, in selection order. -/
theorem executeInteractiveCherryPick_sample :
    executeInteractiveCherryPick envNoLive [commitA, commitB] ["origin", "up"] "release" true =
      ⟨[GitCall.checkout "origin/release",
        GitCall.cherryPick "bbbb", GitCall.cherryPick "aaaa",
        GitCall.push "origin" "HEAD" "release",
        GitCall.push "up" "HEAD" "release"], .completed⟩ := by decide

/-- A dirty tree aborts with no calls; a dry run issues no calls and still
reports success. -/
theorem executeQuickRelease_sample_guards :
    executeQuickRelease envDirty [commitA] false true = ⟨[], .dirtyAbort⟩ ∧
    executeQuickRelease envLive [commitA] true true = ⟨[], .completed⟩ := by decide

/-! ### Helper lemmas about the engine traces -/

/-- When every cherry-pick succeeds, the cherry-pick loop issues exactly one
cherry-pick call per commit, in list order, and reports success. -/
theorem cherryPickRun_all_ok (env : Env) (cs : List Commit)
    (h : ∀ c ∈ cs, env.cherryPickOk c.fullHash = true) :
    cherryPickRun env cs = (cs.map fun c => GitCall.cherryPick c.fullHash, true) := by
  induction cs with
  | nil => rfl
  | cons c rest ih =>
    have hc : env.cherryPickOk c.fullHash = true := h c (by simp)
    simp [cherryPickRun, hc, ih fun x hx => h x (by simp [hx])]

/-- When every push succeeds, the interactive push loop pushes
`HEAD:targetBranch` to each remote in list order and reports success. -/
theorem pushRun_all_ok (env : Env) (tb : String) (rs : List String)
    (h : ∀ r ∈ rs, env.pushOk r "HEAD" tb = true) :
    pushRun env tb rs = (rs.map fun r => GitCall.push r "HEAD" tb, true) := by
  induction rs with
  | nil => rfl
  | cons r rest ih =>
    have hr : env.pushOk r "HEAD" tb = true := h r (by simp)
    simp [pushRun, hr, ih fun x hx => h x (by simp [hx])]

/-- Whatever the backend does, the interactive push loop issues pushes to a
prefix of the selected remotes, in selection order, and nothing else. -/
theorem pushRun_take (env : Env) (tb : String) (rs : List String) :
    ∃ k, k ≤ rs.length ∧
      (pushRun env tb rs).1 = (rs.take k).map fun r => GitCall.push r "HEAD" tb := by
  induction rs with
  | nil => exact ⟨0, by simp, rfl⟩
  | cons r rest ih =>
    by_cases hr : env.pushOk r "HEAD" tb = true
    · obtain ⟨k, hk, he⟩ := ih
      exact ⟨k + 1, by simpa using hk, by simp [pushRun, hr, he]⟩
    · exact ⟨1, by simp, by simp [pushRun, hr]⟩

/-- A list of cherry-pick calls survives the cherry-pick filter whole. -/
theorem filter_isCherryPick_map (cs : List Commit) :
    ((cs.map fun c => GitCall.cherryPick c.fullHash).filter isCherryPick)
      = cs.map fun c => GitCall.cherryPick c.fullHash := by
  induction cs with
  | nil => rfl
  | cons c rest ih => simp [isCherryPick, ih]

/-- The interactive push loop issues no cherry-pick call. -/
theorem filter_isCherryPick_pushRun (env : Env) (tb : String) (rs : List String) :
    ((pushRun env tb rs).1.filter isCherryPick) = [] := by
  induction rs with
  | nil => rfl
  | cons r rest ih =>
    by_cases hr : env.pushOk r "HEAD" tb = true <;> simp [pushRun, hr, isCherryPick, ih]

/-- A list of cherry-pick calls contains no push. -/
theorem filter_isPush_map_cherryPick (cs : List Commit) :
    ((cs.map fun c => GitCall.cherryPick c.fullHash).filter isPush) = [] := by
  induction cs with
  | nil => rfl
  | cons c rest ih => simp [isPush, ih]

/-- The interactive push loop issues only pushes. -/
theorem filter_isPush_pushRun (env : Env) (tb : String) (rs : List String) :
    ((pushRun env tb rs).1.filter isPush) = (pushRun env tb rs).1 := by
  induction rs with
  | nil => rfl
  | cons r rest ih =>
    by_cases hr : env.pushOk r "HEAD" tb = true <;> simp [pushRun, hr, isPush, ih]

/-- A list of cherry-pick calls contains no checkout. -/
theorem filter_isCheckout_map_cherryPick (cs : List Commit) :
    ((cs.map fun c => GitCall.cherryPick c.fullHash).filter isCheckout) = [] := by
  induction cs with
  | nil => rfl
  | cons c rest ih => simp [isCheckout, ih]

/-- The interactive push loop issues no checkout. -/
theorem filter_isCheckout_pushRun (env : Env) (tb : String) (rs : List String) :
    ((pushRun env tb rs).1.filter isCheckout) = [] := by
  induction rs with
  | nil => rfl
  | cons r rest ih =>
    by_cases hr : env.pushOk r "HEAD" tb = true <;> simp [pushRun, hr, isCheckout, ih]

/-! ### C1 -/

/-- C1: if the pre-flight dirty-tree check reports uncommitted tracked
changes (`hasUncommittedChanges() = true`), then the execution run — both
`executeInteractiveCherryPick` and `executeQuickRelease` — issues no
checkout, cherry-pick, or push backend call: the run's mutating-call trace
is empty. -/
theorem c1_dirty_tree_blocks_mutations (env : Env) (commits : List Commit)
    (remotes : List String) (targetBranch : String) (proceed dryRun : Bool)
    (h : hasUncommittedChanges env = true) :
    (executeInteractiveCherryPick env commits remotes targetBranch proceed).calls = [] ∧
    (executeQuickRelease env commits dryRun proceed).calls = [] := by
  cases proceed <;> simp [executeInteractiveCherryPick, executeQuickRelease, h]

/-- Witness for C1: a concrete dirty environment, one commit, one remote. -/
theorem c1_witness :
    (executeInteractiveCherryPick envDirty [commitA] ["origin"] "release" true).calls = [] ∧
    (executeQuickRelease envDirty [commitA] false true).calls = [] :=
  c1_dirty_tree_blocks_mutations envDirty [commitA] ["origin"] "release" true false (by decide)

/-! ### C4 -/

/-- C4: execution never begins with an empty commit selection or an empty
remote set: the interactive menu rejects the execute request when either
selection is empty, the quick-release menu rejects it when the commit
selection is empty, and in that state no mutating backend call is issued. -/
theorem c4_empty_selection_rejected (env : Env) (commits : List Commit)
    (remotes : List String) (targetBranch : String) (proceed dryRun : Bool) :
    (commits = [] ∨ remotes = [] →
      (interactiveExecuteRequest env commits remotes targetBranch proceed).calls = []) ∧
    (commits = [] →
      (quickExecuteRequest env commits dryRun proceed).calls = []) := by
  constructor
  · rintro (rfl | rfl)
    · simp [interactiveExecuteRequest]
    · by_cases hc : commits.length = 0 <;> simp [interactiveExecuteRequest, hc]
  · rintro rfl
    simp [quickExecuteRequest]

/-- Witness for C4: empty selections at a concrete environment. -/
theorem c4_witness :
    (interactiveExecuteRequest envLive [] [] "release" true).calls = [] ∧
    (quickExecuteRequest envLive [] false true).calls = [] :=
  ⟨(c4_empty_selection_rejected envLive [] [] "release" true false).1 (Or.inl rfl),
   (c4_empty_selection_rejected envLive [] [] "release" true false).2 rfl⟩

/-! ### C10 -/

/-- C10: when the status query behind the dirty-working-tree check throws,
`hasUncommittedChanges` returns `false` — the tree is treated as clean — so
the entry guard passes and the execution proceeds to issue its first
mutating call (the checkout) despite the unverified working-tree state. -/
theorem c10_status_failure_treated_clean (env : Env) (commits : List Commit)
    (remotes : List String) (targetBranch : String)
    (h : env.statusResult = none) :
    hasUncommittedChanges env = false ∧
    (executeQuickRelease env commits false true).calls.head? =
      some (GitCall.checkout "origin/release") ∧
    (executeInteractiveCherryPick env commits remotes targetBranch true).calls.head? =
      some (GitCall.checkout (remotes.headD "undefined" ++ "/" ++ targetBranch)) := by
  have hclean : hasUncommittedChanges env = false := by simp [hasUncommittedChanges, h]
  refine ⟨hclean, ?_, ?_⟩
  · unfold executeQuickRelease
    simp only [hclean, if_true, if_false]
    split_ifs <;> simp_all
  · unfold executeInteractiveCherryPick
    simp only [hclean, if_true, if_false]
    split_ifs <;> simp_all

/-! ### C2 -/

/-- C2: for a non-empty commit selection, when the run proceeds on a clean
tree, the initial checkout succeeds and every cherry-pick succeeds, the
execution applies cherry-picks in exactly the reverse of the selection
list's order: the cherry-pick sub-trace of both the interactive run and the
quick-release run is the reversed selection, one cherry-pick per selected
commit. -/
theorem c2_cherry_picks_reverse_selection (env : Env) (commits : List Commit)
    (remotes : List String) (targetBranch : String)
    (hne : commits ≠ [])
    (hclean : hasUncommittedChanges env = false)
    (hcp : ∀ c ∈ commits, env.cherryPickOk c.fullHash = true)
    (hco1 : env.checkoutOk (remotes.headD "undefined" ++ "/" ++ targetBranch) = true)
    (hco2 : env.checkoutOk "origin/release" = true) :
    ((executeInteractiveCherryPick env commits remotes targetBranch true).calls.filter isCherryPick
      = commits.reverse.map fun c => GitCall.cherryPick c.fullHash) ∧
    ((executeQuickRelease env commits false true).calls.filter isCherryPick
      = commits.reverse.map fun c => GitCall.cherryPick c.fullHash) := by
  have hrev : ∀ c ∈ commits.reverse, env.cherryPickOk c.fullHash = true := fun c hc =>
    hcp c (List.mem_reverse.mp hc)
  have hcpr := cherryPickRun_all_ok env commits.reverse hrev
  have hco1' : env.checkoutOk (remotes.head?.getD "undefined" ++ "/" ++ targetBranch) = true := by
    simpa using hco1
  constructor
  · unfold executeInteractiveCherryPick
    simp [hclean, hco1', hcpr, List.filter_append, filter_isCherryPick_map,
      filter_isCherryPick_pushRun, isCherryPick]
  · unfold executeQuickRelease
    simp only [hclean, hco2, hcpr, if_true, if_false]
    split_ifs <;>
      simp_all [List.filter_append, filter_isCherryPick_map, quickPushCalls, isCherryPick]

/-- Witness for C2: two commits, one remote, all backend calls succeed. -/
theorem c2_witness :
    ((executeInteractiveCherryPick envNoLive [commitA, commitB] ["origin"] "release" true).calls.filter isCherryPick
      = [commitA, commitB].reverse.map fun c => GitCall.cherryPick c.fullHash) ∧
    ((executeQuickRelease envNoLive [commitA, commitB] false true).calls.filter isCherryPick
      = [commitA, commitB].reverse.map fun c => GitCall.cherryPick c.fullHash) :=
  c2_cherry_picks_reverse_selection envNoLive [commitA, commitB] ["origin"] "release"
    (by decide) (by decide) (by decide) (by decide) (by decide)

/-! ### C5 -/

/-- Counterexample for C5: in a fully successful quick release with the
`live` remote configured, the engine does not push `HEAD` to every selected
remote — the second push call is `push live origin/release:release`, whose
source ref is `origin/release`, not `HEAD`. -/
theorem c5_counterexample :
    ¬ ∀ call ∈ (executeQuickRelease envLive [commitA] false true).calls,
        isPush call = true → pushSrc call = "HEAD" := by decide

/-- C5 amended: when all cherry-picks succeed, pushes are issued to each
selected remote's target branch in the order the remotes were selected, and
a push failure on one remote ends the trace without issuing any further
call, so pushes already issued to earlier remotes stand (no rollback call
exists). The interactive run pushes `HEAD:targetBranch` for every remote;
the quick release pushes `HEAD:release` to `origin` and then
`origin/release:release` (not `HEAD`) to `live`: in every environment the
push sub-trace is a prefix of the selection-ordered full push list, and it
is the full list when every push succeeds. -/
theorem c5_amended_push_order_no_rollback (env : Env) (commits : List Commit)
    (remotes : List String) (targetBranch : String)
    (hclean : hasUncommittedChanges env = false)
    (hcp : ∀ c ∈ commits, env.cherryPickOk c.fullHash = true)
    (hco1 : env.checkoutOk (remotes.headD "undefined" ++ "/" ++ targetBranch) = true)
    (hco2 : env.checkoutOk "origin/release" = true) :
    (∃ k, k ≤ remotes.length ∧
      (executeInteractiveCherryPick env commits remotes targetBranch true).calls.filter isPush
        = (remotes.take k).map fun r => GitCall.push r "HEAD" targetBranch) ∧
    ((∀ r ∈ remotes, env.pushOk r "HEAD" targetBranch = true) →
      (executeInteractiveCherryPick env commits remotes targetBranch true).calls.filter isPush
        = remotes.map fun r => GitCall.push r "HEAD" targetBranch) ∧
    (∃ k, (executeQuickRelease env commits false true).calls.filter isPush
        = (quickPushCalls env).take k) ∧
    (env.pushOk "origin" "HEAD" "release" = true →
      (env.hasLiveRemote = true → env.pushOk "live" "origin/release" "release" = true) →
      (executeQuickRelease env commits false true).calls.filter isPush = quickPushCalls env) := by
  have hrev : ∀ c ∈ commits.reverse, env.cherryPickOk c.fullHash = true := fun c hc =>
    hcp c (List.mem_reverse.mp hc)
  have hcpr := cherryPickRun_all_ok env commits.reverse hrev
  have hco1' : env.checkoutOk (remotes.head?.getD "undefined" ++ "/" ++ targetBranch) = true := by
    simpa using hco1
  refine ⟨?_, ?_, ?_, ?_⟩
  · obtain ⟨k, hk, he⟩ := pushRun_take env targetBranch remotes
    refine ⟨k, hk, ?_⟩
    unfold executeInteractiveCherryPick
    simp [hclean, hco1', hcpr, List.filter_append, filter_isPush_map_cherryPick,
      filter_isPush_pushRun, isPush, he]
    intro a ha
    obtain ⟨r, _, rfl⟩ := List.mem_map.mp (List.take_subset _ _ ha)
    rfl
  · intro hall
    unfold executeInteractiveCherryPick
    simp [hclean, hco1', hcpr, pushRun_all_ok env targetBranch remotes hall,
      List.filter_append, filter_isPush_map_cherryPick, isPush]
  · unfold executeQuickRelease
    simp only [hclean, hco2, hcpr, if_true, if_false]
    by_cases hpo : env.pushOk "origin" "HEAD" "release" = true
    · by_cases hlf : env.hasLiveRemote = true ∧ ¬env.pushOk "live" "origin/release" "release" = true
      · refine ⟨2, ?_⟩
        simp_all [List.filter_append, filter_isPush_map_cherryPick, quickPushCalls, isPush]
      · refine ⟨(quickPushCalls env).length, ?_⟩
        split_ifs <;>
          simp_all [List.filter_append, filter_isPush_map_cherryPick, quickPushCalls, isPush]
    · refine ⟨1, ?_⟩
      simp_all [List.filter_append, filter_isPush_map_cherryPick, quickPushCalls, isPush]
  · intro hpo hpl
    unfold executeQuickRelease
    have hlf : ¬(env.hasLiveRemote = true ∧ ¬env.pushOk "live" "origin/release" "release" = true) := by
      intro hc; exact hc.2 (hpl hc.1)
    simp only [hclean, hco2, hcpr, if_true, if_false]
    split_ifs <;>
      simp_all [List.filter_append, filter_isPush_map_cherryPick, quickPushCalls, isPush]

/-- Witness for C5 amended: two remotes in interactive mode and a live-remote
quick release, all backend calls succeeding. -/
theorem c5_witness :
    (∃ k, k ≤ (["origin", "up"] : List String).length ∧
      (executeInteractiveCherryPick envLive [commitA] ["origin", "up"] "release" true).calls.filter isPush
        = ((["origin", "up"] : List String).take k).map fun r => GitCall.push r "HEAD" "release") ∧
    ((∀ r ∈ (["origin", "up"] : List String), envLive.pushOk r "HEAD" "release" = true) →
      (executeInteractiveCherryPick envLive [commitA] ["origin", "up"] "release" true).calls.filter isPush
        = (["origin", "up"] : List String).map fun r => GitCall.push r "HEAD" "release") ∧
    (∃ k, (executeQuickRelease envLive [commitA] false true).calls.filter isPush
        = (quickPushCalls envLive).take k) ∧
    (envLive.pushOk "origin" "HEAD" "release" = true →
      (envLive.hasLiveRemote = true → envLive.pushOk "live" "origin/release" "release" = true) →
      (executeQuickRelease envLive [commitA] false true).calls.filter isPush = quickPushCalls envLive) :=
  c5_amended_push_order_no_rollback envLive [commitA] ["origin", "up"] "release"
    (by decide) (by decide) (by decide) (by decide)

/-! ### C6 -/

/-- A list of interactive push calls contains no checkout. -/
theorem filter_isCheckout_map_push (rs : List String) (tb : String) :
    ((rs.map fun r => GitCall.push r "HEAD" tb).filter isCheckout) = [] := by
  induction rs with
  | nil => rfl
  | cons r rest ih => simp [isCheckout, ih]

/-- Counterexample for C6: a fully successful interactive execution run (one
commit, one remote, every backend call succeeds) ends with the success
banner, yet its trace ends at the push — the only checkout is the initial
one and the engine attempts no restoring checkout back to the pre-run
branch, contradicting the claimed "exactly one restoring checkout" after a
successful run. -/
theorem c6_counterexample :
    (executeInteractiveCherryPick envLive [commitA] ["origin"] "release" true).outcome
      = Outcome.completed ∧
    (executeInteractiveCherryPick envLive [commitA] ["origin"] "release" true).calls
      = [GitCall.checkout "origin/release", GitCall.cherryPick "aaaa",
         GitCall.push "origin" "HEAD" "release"] := by decide

/-- C6 amended: only the quick release restores the original branch. After
its pushes succeed (original branch known and non-empty, not a dry run) it
attempts exactly one restoring checkout, as the final call of the trace; if
that restore fails the run is reported through the same caught-error path as
any other execution failure (the success banner is skipped) rather than as a
warning, though the completed pushes stand. A successful interactive run
performs no restoring checkout at all: its only checkout is the initial
one. -/
theorem c6_amended_restore_behavior (env : Env) (commits : List Commit)
    (remotes : List String) (targetBranch : String)
    (hclean : hasUncommittedChanges env = false)
    (hcp : ∀ c ∈ commits, env.cherryPickOk c.fullHash = true)
    (hco2 : env.checkoutOk "origin/release" = true)
    (hpo : env.pushOk "origin" "HEAD" "release" = true)
    (hpl : env.hasLiveRemote = true → env.pushOk "live" "origin/release" "release" = true)
    (horig : getCurrentBranch env ≠ "")
    (hco1 : env.checkoutOk (remotes.headD "undefined" ++ "/" ++ targetBranch) = true)
    (hpa : ∀ r ∈ remotes, env.pushOk r "HEAD" targetBranch = true) :
    ((executeQuickRelease env commits false true).calls =
      GitCall.checkout "origin/release"
        :: (commits.reverse.map fun c => GitCall.cherryPick c.fullHash)
        ++ quickPushCalls env ++ [GitCall.checkout (getCurrentBranch env)]) ∧
    ((executeQuickRelease env commits false true).outcome =
      if env.checkoutOk (getCurrentBranch env) = true then Outcome.completed
      else Outcome.caughtError) ∧
    ((executeInteractiveCherryPick env commits remotes targetBranch true).calls.filter isCheckout
      = [GitCall.checkout (remotes.headD "undefined" ++ "/" ++ targetBranch)]) := by
  have hrev : ∀ c ∈ commits.reverse, env.cherryPickOk c.fullHash = true := fun c hc =>
    hcp c (List.mem_reverse.mp hc)
  have hcpr := cherryPickRun_all_ok env commits.reverse hrev
  have hlf : ¬(env.hasLiveRemote = true ∧ env.pushOk "live" "origin/release" "release" = false) := by
    rintro ⟨h1, h2⟩
    rw [hpl h1] at h2
    cases h2
  have hco1' : env.checkoutOk (remotes.head?.getD "undefined" ++ "/" ++ targetBranch) = true := by
    simpa using hco1
  refine ⟨?_, ?_, ?_⟩
  · unfold executeQuickRelease
    simp [hclean, hco2, hcpr, hpo, hlf, horig]
  · unfold executeQuickRelease
    simp [hclean, hco2, hcpr, hpo, hlf, horig]
  · unfold executeInteractiveCherryPick
    simp [hclean, hco1', hcpr, pushRun_all_ok env targetBranch remotes hpa,
      List.filter_append, filter_isCheckout_map_cherryPick, filter_isCheckout_map_push,
      isCheckout]

/-- Witness for C6 amended: concrete quick release in which the restoring
checkout fails, plus the matching interactive run. -/
theorem c6_witness :
    ((executeQuickRelease envRestoreFails [commitA] false true).calls =
      GitCall.checkout "origin/release"
        :: ([commitA].reverse.map fun c => GitCall.cherryPick c.fullHash)
        ++ quickPushCalls envRestoreFails ++ [GitCall.checkout (getCurrentBranch envRestoreFails)]) ∧
    ((executeQuickRelease envRestoreFails [commitA] false true).outcome =
      if envRestoreFails.checkoutOk (getCurrentBranch envRestoreFails) = true then Outcome.completed
      else Outcome.caughtError) ∧
    ((executeInteractiveCherryPick envRestoreFails [commitA] ["origin"] "release" true).calls.filter isCheckout
      = [GitCall.checkout ((["origin"] : List String).headD "undefined" ++ "/" ++ "release")]) :=
  c6_amended_restore_behavior envRestoreFails [commitA] ["origin"] "release"
    (by decide) (by decide) (by decide) (by decide) (by decide) (by decide) (by decide) (by decide)

/-! ### C7 -/

/-- Counterexample for C7: for a commit whose touched files are exactly
`file .txt ` and `CON.txt`, the naming check does not produce two entries —
the anchored reserved-name pattern matches only a path segment that is
exactly a device name, so `CON.txt` is not flagged and only the
trailing-space issue on `file .txt ` is recorded. -/
theorem c7_counterexample :
    ¬ (hasInvalidNames ["file .txt ", "CON.txt"]).length = 2 := by decide

/-- C7 amended: for a commit whose touched files are exactly `file .txt `
(trailing space) and `CON.txt`, the naming check produces exactly one
naming-issue entry — the leading/trailing-space issue on `file .txt `;
`CON.txt` is not flagged because the reserved-name check matches only exact
device names — and the analyzer still sets `hasIssues` to true. -/
theorem c7_naming_check_single_issue :
    hasInvalidNames ["file .txt ", "CON.txt"] =
      [⟨"file .txt ", "leading/trailing spaces", "file .txt "⟩] ∧
    namingCheckHasIssues ["file .txt ", "CON.txt"] = true := by decide

/-! ### C3 -/

/-- Adding an in-range element to the selection set preserves the
invariant. -/
theorem goodSel_setAdd (m : ℤ) (acc : List ℤ) (x : ℤ) (h : GoodSel m acc)
    (hx : 1 ≤ x ∧ x ≤ m) : GoodSel m (setAdd acc x) := by
  unfold setAdd
  split_ifs with hmem
  · exact h
  · constructor
    · simp [List.nodup_append, h.1, hmem]
    · intro y hy
      rcases List.mem_append.mp hy with hy | hy
      · exact h.2 y hy
      · rw [List.mem_singleton.mp hy]
        exact hx

/-- The guarded add of `parseSelection` preserves the invariant. -/
theorem goodSel_addIfValid (m : ℤ) (acc : List ℤ) (i : ℤ) (h : GoodSel m acc) :
    GoodSel m (addIfValid m acc i) := by
  unfold addIfValid
  split_ifs with hi
  · exact goodSel_setAdd m acc i h hi
  · exact h

/-- Folding guarded adds over any candidate list preserves the invariant. -/
theorem goodSel_foldl_addIfValid (m : ℤ) (l : List ℤ) :
    ∀ acc, GoodSel m acc → GoodSel m (l.foldl (addIfValid m) acc) := by
  induction l with
  | nil => exact fun _ h => h
  | cons i rest ih => exact fun acc h => ih _ (goodSel_addIfValid m acc i h)

/-- Processing one selection token preserves the invariant. -/
theorem goodSel_processPart (m : ℤ) (part : List Char) (acc : List ℤ)
    (h : GoodSel m acc) : GoodSel m (processPart m acc part) := by
  unfold processPart
  split_ifs with hc
  · cases jsParseInt (trimBoth ((splitCh '-' part).getD 0 [])) with
    | none => exact h
    | some s =>
      cases jsParseInt (trimBoth ((splitCh '-' part).getD 1 [])) with
      | none => exact h
      | some e => exact goodSel_foldl_addIfValid m _ acc h
  · cases jsParseInt part with
    | none => exact h
    | some n => exact goodSel_addIfValid m acc n h

/-- Processing every token preserves the invariant. -/
theorem goodSel_parts (m : ℤ) (parts : List (List Char)) :
    ∀ acc, GoodSel m acc → GoodSel m (parts.foldl (processPart m) acc) := by
  induction parts with
  | nil => exact fun _ h => h
  | cons p rest ih => exact fun acc h => ih _ (goodSel_processPart m p acc h)

/-- C3: for every input string and every max ≥ 1, `parseSelection` returns
a strictly ascending sequence (hence duplicate-free) in which every element
lies in `[1, max]`. -/
theorem c3_selection_sorted_bounded (input : String) (m : ℤ) (hm : 1 ≤ m) :
    (parseSelection input m).Sorted (· < ·) ∧
    ∀ x ∈ parseSelection input m, 1 ≤ x ∧ x ≤ m := by
  have hgood : GoodSel m (((splitCh ',' input.data).map trimBoth).foldl (processPart m) []) :=
    goodSel_parts m _ [] ⟨List.nodup_nil, by simp⟩
  have hperm :=
    List.perm_insertionSort (r := fun a b : ℤ => a ≤ b)
      (((splitCh ',' input.data).map trimBoth).foldl (processPart m) [])
  constructor
  · apply List.Sorted.lt_of_le
    · exact List.sorted_insertionSort _ _
    · exact hperm.nodup_iff.mpr hgood.1
  · intro x hx
    exact hgood.2 x (hperm.mem_iff.mp hx)

/-- Witness for C3 at a concrete out-of-order input. -/
theorem c3_witness :
    (parseSelection "2,1" 3).Sorted (· < ·) ∧
    ∀ x ∈ parseSelection "2,1" 3, 1 ≤ x ∧ x ≤ 3 :=
  c3_selection_sorted_bounded "2,1" 3 (by decide)

/-! ### C8 -/

/-- When every token contributes nothing to the selection set, the fold
leaves the empty set empty. -/
theorem foldl_processPart_nil (m : ℤ) :
    ∀ ps : List (List Char),
      (∀ part ∈ ps, ∀ acc : List ℤ, processPart m acc part = acc) →
      ps.foldl (processPart m) [] = []
  | [], _ => rfl
  | p :: rest, h => by
    rw [List.foldl_cons, h p (by simp) []]
    exact foldl_processPart_nil m rest fun q hq acc => h q (by simp [hq]) acc

/-- C8: `parseSelection` is a total function that silently drops every
out-of-range or non-numeric token: an input all of whose tokens contribute
no valid index — in particular the empty string and `"0"` — returns the
empty result instead of an error. -/
theorem c8_invalid_tokens_dropped (m : ℤ) :
    parseSelection "" m = [] ∧ parseSelection "0" m = [] ∧
    ∀ input : String,
      (∀ part ∈ (splitCh ',' input.data).map trimBoth,
        ∀ acc : List ℤ, processPart m acc part = acc) →
      parseSelection input m = [] := by
  refine ⟨rfl, rfl, ?_⟩
  intro input h
  show List.insertionSort (fun a b : ℤ => a ≤ b)
    (((splitCh ',' input.data).map trimBoth).foldl (processPart m) []) = []
  rw [foldl_processPart_nil m _ h]
  rfl

/-- Witness for C8: a non-numeric token and an out-of-range token. -/
theorem c8_witness : parseSelection "x,99" 5 = [] := by
  apply (c8_invalid_tokens_dropped 5).2.2 "x,99"
  intro part hp acc
  have hps : (splitCh ',' "x,99".data).map trimBoth = [['x'], ['9', '9']] := by decide
  rw [hps] at hp
  simp only [List.mem_cons, List.not_mem_nil, or_false] at hp
  rcases hp with rfl | rfl
  · rfl
  · rfl

/-! ### C9 -/

/-- Splitting never yields the empty list of chunks. -/
theorem splitCh_ne_nil (sep : Char) (l : List Char) : splitCh sep l ≠ [] := by
  cases l with
  | nil => simp [splitCh]
  | cons c cs =>
    cases h : splitCh sep cs with
    | nil => simp [splitCh, h]
    | cons t ts =>
      simp only [splitCh, h]
      split <;> simp

/-- A separator-free list splits into the single chunk that is itself. -/
theorem splitCh_no_sep (sep : Char) (l : List Char) (h : sep ∉ l) :
    splitCh sep l = [l] := by
  induction l with
  | nil => rfl
  | cons c cs ih =>
    have hc : ¬c = sep := fun e => h (by simp [e])
    have hcs : sep ∉ cs := fun e => h (by simp [e])
    simp only [splitCh, ih hcs]
    simp [hc]

/-- Splitting around an explicit separator whose prefix is separator-free
yields the prefix as the first chunk. -/
theorem splitCh_append_sep (sep : Char) (l₁ l₂ : List Char) (h : sep ∉ l₁) :
    splitCh sep (l₁ ++ sep :: l₂) = l₁ :: splitCh sep l₂ := by
  induction l₁ with
  | nil =>
    cases hs : splitCh sep l₂ with
    | nil => exact absurd hs (splitCh_ne_nil sep l₂)
    | cons t ts =>
      simp only [List.nil_append, splitCh, hs]
      simp
  | cons a rest ih =>
    have ha : ¬a = sep := fun e => h (by simp [e])
    have hrest : sep ∉ rest := fun e => h (by simp [e])
    simp only [List.cons_append, splitCh, List.append_eq]
    rw [ih hrest]
    simp [ha]

/-- Left trimming passes over an append whose boundary character is not
whitespace. -/
theorem trimL_append (c : Char) (hc : isWs c = false) (l₁ l₂ : List Char) :
    trimL (l₁ ++ c :: l₂) = trimL l₁ ++ c :: l₂ := by
  induction l₁ with
  | nil => simp [trimL, List.dropWhile_cons, hc]
  | cons a rest ih =>
    by_cases ha : isWs a = true
    · simpa [trimL, List.dropWhile_cons, ha] using ih
    · simp [trimL, List.dropWhile_cons, ha]

/-- Right trimming passes over an append whose boundary character is not
whitespace. -/
theorem trimR_append (c : Char) (hc : isWs c = false) (l₁ l₂ : List Char) :
    trimR (l₁ ++ c :: l₂) = l₁ ++ c :: trimR l₂ := by
  have h1 : (l₁ ++ c :: l₂).reverse = l₂.reverse ++ c :: l₁.reverse := by simp
  have h2 : trimL (l₂.reverse ++ c :: l₁.reverse) = trimL l₂.reverse ++ c :: l₁.reverse :=
    trimL_append c hc _ _
  unfold trimR
  rw [h1]
  rw [show (l₂.reverse ++ c :: l₁.reverse).dropWhile isWs
      = trimL (l₂.reverse ++ c :: l₁.reverse) from rfl, h2]
  simp [trimL]

/-- A dash-joined pair of fully trimmed tokens is itself fully trimmed. -/
theorem trimBoth_token (ta tb : List Char) (h1 : trimL ta = ta) (h2 : trimR tb = tb) :
    trimBoth (ta ++ '-' :: tb) = ta ++ '-' :: tb := by
  unfold trimBoth
  rw [trimL_append '-' (by decide) ta tb, h1, trimR_append '-' (by decide) ta tb, h2]

/-- Membership gives a positive `includes` test. -/
theorem containsCh_eq_true (c : Char) (l : List Char) (h : c ∈ l) :
    containsCh c l = true := by
  simp only [containsCh, List.any_eq_true]
  exact ⟨c, h, by simp⟩

/-- Evaluation of `parseSelection` on a single dash-joined range token made
of trimmed, separator-free endpoint tokens. -/
theorem parseSelection_range_token (m : ℤ) (x y : List Char)
    (hdx : '-' ∉ x) (hdy : '-' ∉ y) (hcx : ',' ∉ x) (hcy : ',' ∉ y)
    (hLx : trimL x = x) (hRx : trimR x = x) (hLy : trimL y = y) (hRy : trimR y = y) :
    parseSelection ⟨x ++ '-' :: y⟩ m =
      List.insertionSort (fun a b : ℤ => a ≤ b)
        (match jsParseInt x, jsParseInt y with
         | some s, some e => (rangeVals (min s e) (max s e)).foldl (addIfValid m) []
         | _, _ => []) := by
  have hsplit : splitCh ',' (x ++ '-' :: y) = [x ++ '-' :: y] := by
    apply splitCh_no_sep
    intro hmem
    rcases List.mem_append.mp hmem with hx | hx
    · exact hcx hx
    · rcases List.mem_cons.mp hx with hx | hx
      · exact absurd hx (by decide)
      · exact hcy hx
  have htrim : trimBoth (x ++ '-' :: y) = x ++ '-' :: y := trimBoth_token x y hLx hRy
  have hcont : containsCh '-' (x ++ '-' :: y) = true := containsCh_eq_true _ _ (by simp)
  have hsp : splitCh '-' (x ++ '-' :: y) = [x, y] := by
    rw [splitCh_append_sep '-' x y hdx, splitCh_no_sep '-' y hdy]
  have hbx : trimBoth x = x := by unfold trimBoth; rw [hLx, hRx]
  have hby : trimBoth y = y := by unfold trimBoth; rw [hLy, hRy]
  show List.insertionSort (fun a b : ℤ => a ≤ b)
    (((splitCh ',' (⟨x ++ '-' :: y⟩ : String).data).map trimBoth).foldl (processPart m) []) = _
  rw [show (⟨x ++ '-' :: y⟩ : String).data = x ++ '-' :: y from rfl, hsplit]
  simp only [List.map_cons, List.map_nil, htrim, List.foldl_cons, List.foldl_nil]
  unfold processPart
  rw [if_pos hcont, hsp]
  simp only [List.getD_cons_zero, List.getD_cons_succ, hbx, hby]

/-- C9: a range token selects the same set in either endpoint order —
concretely `parseSelection("5-2", 10) = [2, 3, 4, 5]`, and in general for
any two trimmed, separator-free endpoint tokens the dash-joined selection
expression is order-independent. -/
theorem c9_range_order_independent :
    parseSelection "5-2" 10 = [2, 3, 4, 5] ∧
    ∀ (ta tb : List Char) (m : ℤ),
      '-' ∉ ta → '-' ∉ tb → ',' ∉ ta → ',' ∉ tb →
      trimL ta = ta → trimR ta = ta → trimL tb = tb → trimR tb = tb →
      parseSelection ⟨ta ++ '-' :: tb⟩ m = parseSelection ⟨tb ++ '-' :: ta⟩ m := by
  refine ⟨by decide, ?_⟩
  intro ta tb m hda hdb hca hcb hLa hRa hLb hRb
  rw [parseSelection_range_token m ta tb hda hdb hca hcb hLa hRa hLb hRb,
    parseSelection_range_token m tb ta hdb hda hcb hca hLb hRb hLa hRa]
  cases jsParseInt ta <;> cases jsParseInt tb <;> simp [min_comm, max_comm]

/-- Witness for C9: the tokens `7` and `3`. -/
theorem c9_witness :
    parseSelection ⟨['7'] ++ '-' :: ['3']⟩ 9 = parseSelection ⟨['3'] ++ '-' :: ['7']⟩ 9 :=
  c9_range_order_independent.2 ['7'] ['3'] 9 (by decide) (by decide) (by decide) (by decide)
    (by decide) (by decide) (by decide) (by decide)

/-- Witness for C10: concrete environment whose status query throws. -/
theorem c10_witness :
    hasUncommittedChanges envStatusFail = false ∧
    (executeQuickRelease envStatusFail [commitA] false true).calls.head? =
      some (GitCall.checkout "origin/release") ∧
    (executeInteractiveCherryPick envStatusFail [commitA] ["origin"] "release" true).calls.head? =
      some (GitCall.checkout ("origin" ++ "/" ++ "release")) :=
  c10_status_failure_treated_clean envStatusFail [commitA] ["origin"] "release" rfl

end GitUi
